import Mathlib

/-!
Verification of the CLTune tuning engine (`src/tuner_impl.cc`,
`include/internal/clpp11.h`) against its natural-language specification.

The C++ code is shallowly embedded: pure computations become Lean
functions over `ℚ` (exact values; IEEE special values `+∞`, `−∞`, `NaN`
are adjoined explicitly where the code branches on them), machine
`size_t` arithmetic wraps modulo `2 ^ 64`, and code that may throw a
C++ exception is modelled with `Except String`.
-/

namespace CLTune

/-- Largest finite value of a C `float`, exactly: `(2 − 2⁻²³) · 2¹²⁷`.
`RunKernel` uses `std::numeric_limits<float>::max()` both as the seed of its
minimum-reduction over run times and as the time stored for a failed run. -/
def floatMax : ℚ := 2 ^ 128 - 2 ^ 104

/-- Largest finite value of a C `double`, exactly: `(2 − 2⁻⁵²) · 2¹⁰²³`.
`Tune` compares `tuning_result.time` against
`std::numeric_limits<double>::max()` to decide the failure display branch. -/
def doubleMax : ℚ := 2 ^ 1024 - 2 ^ 971

/-! ### IEEE-style value domain for the output verifier

`TunerImpl::DownloadAndCompare` accumulates `double l2_norm` and branches on
`std::isnan(l2_norm)` and `l2_norm > kMaxL2Norm`.  Buffer elements are widened
to `double` before subtraction.  We model a `double` as either an exact finite
rational or one of the special values `+∞`, `−∞`, `NaN`, with the IEEE rules
for the operations the verifier performs (`-`, `fabs`, `+`, `>`). -/

inductive FloatVal where
  | finite : ℚ → FloatVal
  | inf : FloatVal
  | neginf : FloatVal
  | nan : FloatVal
  deriving DecidableEq

namespace FloatVal

/-- IEEE addition restricted to the cases the verifier can reach:
`NaN` propagates, `∞ + (−∞)` is `NaN`, infinities absorb finite values. -/
def fadd : FloatVal → FloatVal → FloatVal
  | nan, _ => nan
  | _, nan => nan
  | inf, neginf => nan
  | neginf, inf => nan
  | inf, _ => inf
  | _, inf => inf
  | neginf, _ => neginf
  | _, neginf => neginf
  | finite a, finite b => finite (a + b)

/-- IEEE subtraction: `NaN` propagates, `∞ − ∞` is `NaN`. -/
def fsub : FloatVal → FloatVal → FloatVal
  | nan, _ => nan
  | _, nan => nan
  | inf, inf => nan
  | neginf, neginf => nan
  | inf, _ => inf
  | neginf, _ => neginf
  | _, inf => neginf
  | _, neginf => inf
  | finite a, finite b => finite (a - b)

/-- IEEE absolute value (`fabs`): `NaN` stays `NaN`, both infinities map
to `+∞`. -/
def fabs : FloatVal → FloatVal
  | nan => nan
  | inf => inf
  | neginf => inf
  | finite a => finite |a|

/-- The `std::isnan` test. -/
def isnan : FloatVal → Bool
  | nan => true
  | _ => false

/-- The IEEE comparison `v > q` against a finite threshold `q`: any
comparison with `NaN` is false, `+∞ > q` is true, `−∞ > q` is false. -/
def fgt (v : FloatVal) (q : ℚ) : Bool :=
  match v with
  | nan => false
  | inf => true
  | neginf => false
  | finite a => decide (q < a)

/-- Whether the value is finite, as the specification's side of the
comparison ("the norm is finite and at most the threshold"). -/
def isFinite : FloatVal → Bool
  | finite _ => true
  | _ => false

end FloatVal

open FloatVal

/-- One element position of an output buffer, carrying the reference value
and the candidate value.  Scalar element types (`int`, `size_t`, `float`,
`double`) are widened to `double`; complex types (`float2`, `double2`) carry
real and imaginary parts. -/
inductive BufElem where
  | scalar : FloatVal → FloatVal → BufElem
  | complexE : FloatVal × FloatVal → FloatVal × FloatVal → BufElem
  deriving DecidableEq

/-- `TunerImpl::AbsoluteDifference`: scalar overloads return
`fabs(double(ref) − double(cand))`; the `float2`/`double2` specialisations
return `|Δreal| + |Δimag|`. -/
def absoluteDifference : BufElem → FloatVal
  | .scalar r c => fabs (fsub r c)
  | .complexE (rr, ri) (cr, ci) => fadd (fabs (fsub rr cr)) (fabs (fsub ri ci))

/-- The accumulated norm of `TunerImpl::DownloadAndCompare`:
`l2_norm = 0.0`, then `l2_norm += AbsoluteDifference(ref[j], cand[j])` over
the buffer. -/
def l2norm (buf : List BufElem) : FloatVal :=
  buf.foldl (fun acc e => fadd acc (absoluteDifference e)) (finite 0)

/-- The verdict of `TunerImpl::DownloadAndCompare` for one output buffer:
`false` (mismatch) when `std::isnan(l2_norm) || l2_norm > kMaxL2Norm`,
`true` (ok) otherwise.  `eps` is the threshold `kMaxL2Norm`. -/
def downloadAndCompare (eps : ℚ) (buf : List BufElem) : Bool :=
  !((l2norm buf).isnan || (l2norm buf).fgt eps)

/-- The specification's verdict condition, written from the spec's words:
"`Ok` iff `L2` is finite and `L2 ≤ ε`". -/
def specVerdict (eps : ℚ) (v : FloatVal) : Bool :=
  match v with
  | .finite a => decide (a ≤ eps)
  | _ => false

/-- `TunerImpl::VerifyOutput`: `status = true`; if a reference exists,
`status &= DownloadAndCompare(buffer)` for every output buffer; the list of
buffers actually downloaded is returned alongside the status. -/
def verifyOutput (hasReference : Bool) (eps : ℚ) (bufs : List (List BufElem)) :
    Bool × List (List BufElem) :=
  if hasReference then
    bufs.foldl (fun st b => (st.1 && downloadAndCompare eps b, st.2 ++ [b])) (true, [])
  else (true, [])

/-- Values the norm accumulator can hold: `NaN`, `+∞`, or a nonnegative
finite value — never `−∞`. -/
def NormVal (v : FloatVal) : Prop :=
  v = nan ∨ v = inf ∨ ∃ q : ℚ, 0 ≤ q ∧ v = finite q

theorem fabs_normVal (v : FloatVal) : NormVal (fabs v) := by
  cases v with
  | finite a => exact Or.inr (Or.inr ⟨|a|, abs_nonneg a, rfl⟩)
  | inf => exact Or.inr (Or.inl rfl)
  | neginf => exact Or.inr (Or.inl rfl)
  | nan => exact Or.inl rfl

theorem fadd_normVal {a b : FloatVal} (ha : NormVal a) (hb : NormVal b) :
    NormVal (fadd a b) := by
  rcases ha with rfl | rfl | ⟨qa, hqa, rfl⟩ <;>
    rcases hb with rfl | rfl | ⟨qb, hqb, rfl⟩
  all_goals first
    | exact Or.inl rfl
    | exact Or.inr (Or.inl rfl)
    | exact Or.inr (Or.inr ⟨qa + qb, by positivity, rfl⟩)

theorem absoluteDifference_normVal (e : BufElem) : NormVal (absoluteDifference e) := by
  cases e with
  | scalar r c => exact fabs_normVal (fsub r c)
  | complexE rp cp =>
    obtain ⟨rr, ri⟩ := rp
    obtain ⟨cr, ci⟩ := cp
    exact fadd_normVal (fabs_normVal (fsub rr cr)) (fabs_normVal (fsub ri ci))

theorem l2norm_normVal (buf : List BufElem) : NormVal (l2norm buf) := by
  have main : ∀ (l : List BufElem) (acc : FloatVal), NormVal acc →
      NormVal (l.foldl (fun acc e => fadd acc (absoluteDifference e)) acc) := by
    intro l
    induction l with
    | nil => intro acc h; exact h
    | cons e t ih =>
      intro acc h
      exact ih _ (fadd_normVal h (absoluteDifference_normVal e))
  exact main buf (finite 0) (Or.inr (Or.inr ⟨0, le_refl 0, rfl⟩))

theorem verifyOutput_fst_all (eps : ℚ) (bufs : List (List BufElem)) :
    (verifyOutput true eps bufs).1 = bufs.all (downloadAndCompare eps) := by
  have main : ∀ (l : List (List BufElem)) (st : Bool) (log : List (List BufElem)),
      (l.foldl (fun st b => (st.1 && downloadAndCompare eps b, st.2 ++ [b])) (st, log)).1
        = (st && l.all (downloadAndCompare eps)) := by
    intro l
    induction l with
    | nil => intro st log; simp
    | cons b t ih =>
      intro st log
      simp only [List.foldl_cons, List.all_cons, ih, Bool.and_assoc]
  have h := main bufs true []
  rw [Bool.true_and] at h
  exact h

/-- A sample buffer whose accumulated norm is `NaN`: the reference holds a
`NaN` element. -/
def bufNaN : List BufElem := [BufElem.scalar FloatVal.nan (FloatVal.finite 0)]

/-- C2: for every output buffer the verdict of `DownloadAndCompare` is `Ok`
exactly when the accumulated norm `l2norm` (element differences widened to
`double`, complex elements contributing `|Δreal| + |Δimag|`) is finite and at
most the threshold `eps`; a `NaN` norm yields a mismatch; and the overall
status of `VerifyOutput` is `Ok` exactly when every output buffer passes. -/
theorem verifier_verdict_spec (eps : ℚ) (buf : List BufElem) (bufs : List (List BufElem)) :
    downloadAndCompare eps buf = specVerdict eps (l2norm buf)
    ∧ (l2norm buf = FloatVal.nan → downloadAndCompare eps buf = false)
    ∧ (verifyOutput true eps bufs).1 = bufs.all (downloadAndCompare eps) := by
  refine ⟨?_, ?_, verifyOutput_fst_all eps bufs⟩
  · rcases l2norm_normVal buf with h | h | ⟨q, hq, h⟩
    · simp [downloadAndCompare, specVerdict, h, isnan, fgt]
    · simp [downloadAndCompare, specVerdict, h, isnan, fgt]
    · by_cases hcmp : q ≤ eps
      · simp [downloadAndCompare, specVerdict, h, isnan, fgt, hcmp, not_lt.mpr hcmp]
      · simp [downloadAndCompare, specVerdict, h, isnan, fgt, hcmp, not_le.mp hcmp]
  · intro h
    simp [downloadAndCompare, h, isnan]

/-- Witness for C2 at a concrete input: a buffer whose norm is `NaN` is
rejected by the verifier with threshold `1/10000`. -/
theorem verifier_verdict_spec_witness :
    downloadAndCompare (1/10000) bufNaN = false :=
  (verifier_verdict_spec (1/10000) bufNaN []).2.1 rfl

/-! ### Timing reduction (`TunerImpl::RunKernel`, lines 298–303)

After the launch loop, `elapsed_time` starts at
`std::numeric_limits<float>::max()` and is reduced with
`std::min(elapsed_time, events[t].GetElapsedTime())` over the `kNumRuns`
per-launch times. -/

/-- The timing reduction of `RunKernel` over the per-launch elapsed times. -/
def elapsedTimeReduction (times : List ℚ) : ℚ :=
  times.foldl min floatMax

theorem foldl_min_le_seed (l : List ℚ) (a : ℚ) : l.foldl min a ≤ a := by
  induction l generalizing a with
  | nil => exact le_refl a
  | cons x t ih => exact le_trans (ih (min a x)) (min_le_left a x)

theorem foldl_min_le_mem : ∀ (l : List ℚ) (a t : ℚ), t ∈ l → l.foldl min a ≤ t := by
  intro l
  induction l with
  | nil => intro a t ht; cases ht
  | cons x r ih =>
    intro a t ht
    rcases List.mem_cons.mp ht with rfl | hr
    · exact le_trans (foldl_min_le_seed r (min a t)) (min_le_right a t)
    · exact ih (min a x) t hr

theorem foldl_min_mem_or (l : List ℚ) (a : ℚ) :
    l.foldl min a = a ∨ l.foldl min a ∈ l := by
  induction l generalizing a with
  | nil => exact Or.inl rfl
  | cons x t ih =>
    rcases ih (min a x) with h | h
    · rcases min_choice a x with hc | hc
      · exact Or.inl (by rw [List.foldl_cons, h, hc])
      · exact Or.inr (by rw [List.foldl_cons, h, hc]; exact List.mem_cons_self x t)
    · exact Or.inr (List.mem_cons_of_mem x h)

/-- C3: for a nonempty list of device-reported per-launch times (all within
the range of a `float`), the recorded time is the minimum of the list — it is
one of the reported times and bounds each of them from below; with the
scripted times `[5, 2, 7]` the recorded time is `2`. -/
theorem timing_reduction_min :
    (∀ ts : List ℚ, ts ≠ [] → (∀ t ∈ ts, t ≤ floatMax) →
      elapsedTimeReduction ts ∈ ts ∧ ∀ t ∈ ts, elapsedTimeReduction ts ≤ t)
    ∧ elapsedTimeReduction [5, 2, 7] = 2 := by
  constructor
  · intro ts hne hbound
    refine ⟨?_, fun t ht => foldl_min_le_mem ts floatMax t ht⟩
    rcases foldl_min_mem_or ts floatMax with h | h
    · cases ts with
      | nil => exact absurd rfl hne
      | cons x r =>
        have hx : x ∈ x :: r := List.mem_cons_self x r
        have h1 : elapsedTimeReduction (x :: r) ≤ x := foldl_min_le_mem _ _ x hx
        have hfx : x = elapsedTimeReduction (x :: r) :=
          le_antisymm (le_of_le_of_eq (hbound x hx) h.symm) h1
        rw [← hfx]
        exact hx
    · exact h
  · show ([5, 2, 7] : List ℚ).foldl min floatMax = 2
    norm_num [floatMax, min_def]

/-- Witness for C3 at the scripted input `[5, 2, 7]`. -/
theorem timing_reduction_min_witness :
    elapsedTimeReduction [5, 2, 7] ∈ ([5, 2, 7] : List ℚ)
    ∧ (∀ t ∈ ([5, 2, 7] : List ℚ), elapsedTimeReduction [5, 2, 7] ≤ t)
    ∧ elapsedTimeReduction [5, 2, 7] = 2 := by
  refine ⟨(timing_reduction_min.1 [5, 2, 7] (by simp) ?_).1,
          (timing_reduction_min.1 [5, 2, 7] (by simp) ?_).2,
          timing_reduction_min.2⟩ <;>
    · intro t ht
      fin_cases ht <;> norm_num [floatMax]

/-! ### Training/validation split (`TunerImpl::ModelPrediction`, lines 441–463)

The function signature carries the caller's `validation_fraction`, but the
body immediately declares `auto validation_fraction = 0.20f;`, shadowing the
parameter.  `validation_samples = static_cast<size_t>(size * validation_fraction)`
then takes the first `size − validation_samples` results as training data and
the remaining `validation_samples` results as validation data, in measurement
order.  `floatOfPoint2` is the exact value of the `float` literal `0.20f`. -/

/-- Exact rational value of the C literal `0.20f`. -/
def floatOfPoint2 : ℚ := 13421773 / 67108864

/-- Floor of a nonnegative rational as a natural number — the value of
`static_cast<size_t>` applied to a nonnegative floating-point quantity. -/
def ratFloorToNat (q : ℚ) : ℕ := q.num.toNat / q.den

set_option linter.unusedVariables false in
/-- The split performed by `ModelPrediction`.  The `let` mirrors the source's
shadowing declaration: the `validationFraction` parameter is never used. -/
def modelPredictionSplit (α : Type) (results : List α) (validationFraction : ℚ) :
    List α × List α :=
  let validationFraction : ℚ := floatOfPoint2
  let validationSamples : ℕ := ratFloorToNat ((results.length : ℚ) * validationFraction)
  let trainingSamples : ℕ := results.length - validationSamples
  (results.take trainingSamples, results.drop trainingSamples)

/-- Modelled from the claim's words: the split the specification asks for,
using the caller's `validationFraction`. -/
def claimSplit (α : Type) (results : List α) (validationFraction : ℚ) :
    List α × List α :=
  let validationSamples : ℕ := ratFloorToNat ((results.length : ℚ) * validationFraction)
  let trainingSamples : ℕ := results.length - validationSamples
  (results.take trainingSamples, results.drop trainingSamples)

/-- C4 (code bug): the split computed by `ModelPrediction` is independent of
the caller's `validation_fraction` argument — the parameter is shadowed by a
local fixed at `0.20f`.  With 10 measured results and a requested validation
fraction of `1/2` the code produces an 8/2 split where the claim requires
5/5. -/
theorem validation_split_shadowing_bug :
    (∀ (α : Type) (results : List α) (v1 v2 : ℚ),
      modelPredictionSplit α results v1 = modelPredictionSplit α results v2)
    ∧ (modelPredictionSplit ℕ (List.range 10) (1/2)).1.length = 8
    ∧ (modelPredictionSplit ℕ (List.range 10) (1/2)).2.length = 2
    ∧ (claimSplit ℕ (List.range 10) (1/2)).1.length = 5
    ∧ (claimSplit ℕ (List.range 10) (1/2)).2.length = 5 := by
  have hcode : ratFloorToNat ((10 : ℚ) * floatOfPoint2) = 2 := by
    have h1 : ((10 : ℚ) * floatOfPoint2) = 67108865 / 33554432 := by
      norm_num [floatOfPoint2]
    rw [ratFloorToNat, h1]
    norm_num
    decide
  have hclaim : ratFloorToNat ((10 : ℚ) * 2⁻¹) = 5 := by
    have h1 : ((10 : ℚ) * 2⁻¹) = 5 := by norm_num
    rw [ratFloorToNat, h1]
    norm_num
    decide
  refine ⟨fun α results v1 v2 => rfl, ?_, ?_, ?_, ?_⟩
  · simp [modelPredictionSplit, hcode]
  · simp [modelPredictionSplit, hcode]
  · simp [claimSplit, hclaim]
  · simp [claimSplit, hclaim]

/-! ### Thread-configuration check (`Device::IsThreadConfigValid`)

`local_size` is a `size_t` product of the axes, so each multiplication wraps
modulo `2 ^ 64`.  The source indexes `MaxWorkItemSizes()[i]` for every axis
`i` of the proposed shape before checking the dimension count; an index
beyond the reported sizes is out of bounds in C++, so theorems assume the
shape has at most as many axes as the device reports sizes for. -/

structure DeviceLimits where
  maxWorkGroupSize : ℕ
  maxWorkItemDimensions : ℕ
  maxWorkItemSizes : List ℕ
  deriving DecidableEq

/-- `Device::IsThreadConfigValid`: computes the wrapped product of the local
axes, rejects when an axis exceeds its per-axis maximum, when the wrapped
product exceeds the maximum work-group size, or when there are more axes
than the device supports. -/
def isThreadConfigValid (dev : DeviceLimits) (loc : List ℕ) : Bool :=
  let localSize := loc.foldl (fun acc item => acc * item % 2 ^ 64) 1
  if (List.range loc.length).any
      (fun i => decide (dev.maxWorkItemSizes.getD i 0 < loc.getD i 0)) then false
  else if decide (dev.maxWorkGroupSize < localSize) then false
  else if decide (dev.maxWorkItemDimensions < loc.length) then false
  else true

theorem foldl_mul_mod (l : List ℕ) (a : ℕ) :
    l.foldl (fun acc item => acc * item % 2 ^ 64) (a % 2 ^ 64) = a * l.prod % 2 ^ 64 := by
  induction l generalizing a with
  | nil => simp
  | cons x t ih =>
    have h : a % 2 ^ 64 * x % 2 ^ 64 = a * x % 2 ^ 64 := by
      conv_lhs => rw [Nat.mod_mul_mod]
    calc (x :: t).foldl (fun acc item => acc * item % 2 ^ 64) (a % 2 ^ 64)
        = t.foldl (fun acc item => acc * item % 2 ^ 64) (a * x % 2 ^ 64) := by
          simp [h]
      _ = a * x * t.prod % 2 ^ 64 := ih (a * x)
      _ = a * (x :: t).prod % 2 ^ 64 := by rw [List.prod_cons, ← mul_assoc]

/-- A 64-bit device whose per-axis limits are `2 ^ 32` but whose work-group
limit is `1024`: the wrapped product of `[2 ^ 32, 2 ^ 32]` is `0`, so the
check accepts a shape whose true thread product is `2 ^ 64`. -/
def devWide : DeviceLimits :=
  { maxWorkGroupSize := 1024
    maxWorkItemDimensions := 3
    maxWorkItemSizes := [2 ^ 32, 2 ^ 32, 2 ^ 32] }

/-- Counterexample to C9 as stated: `IsThreadConfigValid` accepts the local
shape `[2 ^ 32, 2 ^ 32]` on `devWide` although the product of its axes
exceeds the device's maximum work-group size — the `size_t` product wraps
modulo `2 ^ 64` to `0`. -/
theorem isThreadConfigValid_overflow_counterexample :
    isThreadConfigValid devWide [2 ^ 32, 2 ^ 32] = true
    ∧ ¬ (([2 ^ 32, 2 ^ 32] : List ℕ).prod ≤ devWide.maxWorkGroupSize) := by
  constructor
  · decide
  · decide

set_option linter.unusedVariables false in
/-- C9 amended: when the proposed shape has no more axes than the device
reports per-axis sizes for (the source otherwise indexes out of bounds) and
the product of the axes does not wrap around `size_t`, the check accepts the
shape exactly when every axis is within its per-axis maximum, the product of
the axes is at most the maximum work-group size, and the number of axes is
at most the maximum work-item dimension count. -/
theorem isThreadConfigValid_spec (dev : DeviceLimits) (loc : List ℕ)
    (hlen : loc.length ≤ dev.maxWorkItemSizes.length) (hprod : loc.prod < 2 ^ 64) :
    isThreadConfigValid dev loc = true ↔
      ((∀ i, i < loc.length → loc.getD i 0 ≤ dev.maxWorkItemSizes.getD i 0)
        ∧ loc.prod ≤ dev.maxWorkGroupSize
        ∧ loc.length ≤ dev.maxWorkItemDimensions) := by
  have hfold : loc.foldl (fun acc item => acc * item % 2 ^ 64) 1 = loc.prod := by
    have h1 : (1 : ℕ) = 1 % 2 ^ 64 := rfl
    rw [h1, foldl_mul_mod loc 1, one_mul, Nat.mod_eq_of_lt hprod]
  simp only [isThreadConfigValid, hfold]
  by_cases haxis : (List.range loc.length).any
      (fun i => decide (dev.maxWorkItemSizes.getD i 0 < loc.getD i 0))
  · simp only [haxis, if_true]
    constructor
    · intro h; cases h
    · intro h
      exfalso
      rcases List.any_eq_true.mp haxis with ⟨i, hi, hgt⟩
      exact absurd (h.1 i (List.mem_range.mp hi)) (not_le.mpr (of_decide_eq_true hgt))
  · simp only [haxis, if_false]
    have haxisOk : ∀ i, i < loc.length → loc.getD i 0 ≤ dev.maxWorkItemSizes.getD i 0 := by
      intro i hi
      by_contra hcon
      exact haxis (List.any_eq_true.mpr
        ⟨i, List.mem_range.mpr hi, decide_eq_true (not_le.mp hcon)⟩)
    by_cases hgroup : dev.maxWorkGroupSize < loc.prod
    · simp only [decide_eq_true hgroup, if_true]
      exact ⟨fun h => Bool.noConfusion h, fun h => absurd h.2.1 (not_le.mpr hgroup)⟩
    · simp only [decide_eq_false (by exact hgroup), if_false]
      by_cases hdim : dev.maxWorkItemDimensions < loc.length
      · simp only [decide_eq_true hdim, if_true]
        exact ⟨fun h => Bool.noConfusion h, fun h => absurd h.2.2 (not_le.mpr hdim)⟩
      · simp only [decide_eq_false (by exact hdim), if_false]
        exact ⟨fun _ => ⟨haxisOk, not_lt.mp hgroup, not_lt.mp hdim⟩, fun _ => rfl⟩

/-- A realistic device and shape for the C9 witness. -/
def devSmall : DeviceLimits :=
  { maxWorkGroupSize := 1024
    maxWorkItemDimensions := 3
    maxWorkItemSizes := [1024, 1024, 64] }

/-- Witness for C9 amended at the concrete shape `[16, 16, 4]` on
`devSmall`. -/
theorem isThreadConfigValid_spec_witness :
    isThreadConfigValid devSmall [16, 16, 4] = true :=
  (isThreadConfigValid_spec devSmall [16, 16, 4] (by decide) (by decide)).mpr (by decide)

/-! ### Measurement pipeline and exception boundary
(`TunerImpl::RunKernel` lines 236–324, `TunerImpl::Tune` lines 173–205)

`RunKernel` wraps compilation, output reset, argument binding, the
local-memory check, the launch loop and the timing reads in a single
`try`/`catch`; the `catch` returns a result with
`time = std::numeric_limits<float>::max()`.  `Tune` then calls
`VerifyOutput()` — outside that `try`/`catch` — to set the result's status.
Each device interaction that can throw is modelled by an outcome field of
`CandidateRun`. -/

inductive BuildStatus where
  | kSuccess : BuildStatus
  | kError : BuildStatus
  | kInvalid : BuildStatus
  deriving DecidableEq

/-- The device-side outcomes of one candidate's measurement: the compile
result, whether each throwing interaction succeeds, the local-memory check
data, the per-launch elapsed times, the thread count of the local range, and
the behaviour of the verification downloads. -/
structure CandidateRun where
  buildStatus : BuildStatus
  resetOk : Bool
  argsOk : Bool
  localMemUsage : ℕ
  localMemSize : ℕ
  launchOk : Bool
  timingOk : Bool
  times : List ℚ
  localThreads : ℕ
  verifyThrows : Bool
  verifyStatus : Bool
  deriving DecidableEq

/-- The result record `TunerImpl::TunerResult` (name and configuration
omitted): measured time, thread count, verification status. -/
structure TunerResultM where
  time : ℚ
  threads : ℕ
  status : Bool
  deriving DecidableEq

/-- The body of `RunKernel`'s `try` block, in source order: build check,
output reset, argument binding, local-memory check (`IsLocalMemoryValid`),
launch loop, timing collection.  An exception is an `Except.error`. -/
def runKernelBody (cr : CandidateRun) : Except String ℚ :=
  match cr.buildStatus with
  | .kError => .error "OpenCL compiler error"
  | .kInvalid => .error "Invalid program binary"
  | .kSuccess =>
    if !cr.resetOk then .error "buffer write failed"
    else if !cr.argsOk then .error "set kernel argument failed"
    else if !decide (cr.localMemUsage ≤ cr.localMemSize) then
      .error "Using too much local memory"
    else if !cr.launchOk then .error "kernel launch failed"
    else if !cr.timingOk then .error "event elapsed time failed"
    else .ok (cr.times.foldl min floatMax)

/-- `RunKernel`: the `catch` converts any exception of the body into the
failure result `time = float max, threads = 0`; the status field is `false`
in both branches and is overwritten by the caller. -/
def runKernel (cr : CandidateRun) : TunerResultM :=
  match runKernelBody cr with
  | .ok t => { time := t, threads := cr.localThreads, status := false }
  | .error _ => { time := floatMax, threads := 0, status := false }

/-- The exception behaviour of `TunerImpl::VerifyOutput` as called from
`Tune`: with a reference configured it downloads each output buffer
(`Buffer::Read` may throw) and returns the comparison verdict; without a
reference it returns `true` and touches no buffer. -/
def verifyOutputE (hasReference : Bool) (cr : CandidateRun) : Except String Bool :=
  if hasReference then
    if cr.verifyThrows then .error "buffer read failed" else .ok cr.verifyStatus
  else .ok true

/-- One iteration of `Tune`'s candidate loop: run the kernel, then set the
result's status from `VerifyOutput()`.  The verification call sits outside
`RunKernel`'s `try`/`catch`, so its exception propagates. -/
def tuneCandidate (hasReference : Bool) (cr : CandidateRun) : Except String TunerResultM :=
  (verifyOutputE hasReference cr).map
    (fun st => { runKernel cr with status := st })

/-- `Tune`'s candidate loop over the scheduled configurations: an uncaught
exception aborts the remaining iterations. -/
def tuneLoop (hasReference : Bool) : List CandidateRun → Except String (List TunerResultM)
  | [] => .ok []
  | cr :: rest => do
    let r ← tuneCandidate hasReference cr
    let rs ← tuneLoop hasReference rest
    .ok (r :: rs)

/-- A candidate whose measurement and verification fully succeed. -/
def crGood : CandidateRun :=
  { buildStatus := .kSuccess, resetOk := true, argsOk := true,
    localMemUsage := 1024, localMemSize := 49152, launchOk := true,
    timingOk := true, times := [3], localThreads := 64,
    verifyThrows := false, verifyStatus := true }

/-- A candidate whose run succeeds but whose verification download throws. -/
def crBadVerify : CandidateRun :=
  { crGood with verifyThrows := true }

/-- A candidate whose compilation fails with a hard compiler error. -/
def crCompileFail : CandidateRun :=
  { crGood with buildStatus := .kError }

theorem runKernel_error_sentinel (cr : CandidateRun) (e : String)
    (he : runKernelBody cr = .error e) :
    runKernel cr = { time := floatMax, threads := 0, status := false } := by
  rw [runKernel, he]

theorem tuneLoop_noThrow (hasReference : Bool) (crs : List CandidateRun)
    (hnothrow : ∀ cr ∈ crs, hasReference = true → cr.verifyThrows = false) :
    tuneLoop hasReference crs =
      .ok (crs.map (fun cr =>
        { runKernel cr with
          status := if hasReference then cr.verifyStatus else true })) := by
  induction crs with
  | nil => rfl
  | cons cr rest ih =>
    have hstep : tuneCandidate hasReference cr =
        .ok { runKernel cr with
              status := if hasReference then cr.verifyStatus else true } := by
      cases hasReference with
      | false => rfl
      | true =>
        have h := hnothrow cr (List.mem_cons_self cr rest) rfl
        simp [tuneCandidate, verifyOutputE, h, Except.map]
    have hrest := ih (fun c hc => hnothrow c (List.mem_cons_of_mem cr hc))
    simp only [List.map_cons]
    show (do
      let r ← tuneCandidate hasReference cr
      let rs ← tuneLoop hasReference rest
      (.ok (r :: rs) : Except String (List TunerResultM))) = _
    rw [hstep, hrest]
    rfl

/-- Counterexample to C1 as stated: an exception raised during the
verification step is not caught at the measurement-pipeline boundary — with
a reference configured, a candidate whose verification download throws
aborts the tuning loop, and the following candidate is never measured. -/
theorem verification_exception_aborts_loop :
    tuneLoop true [crBadVerify, crGood] = .error "buffer read failed" := by
  rfl

/-- C1 amended: any exception raised during compilation, output reset,
argument binding, the local-memory check, the launch loop or the timing
reads is caught inside `RunKernel` — the candidate is recorded as failed
with the sentinel time `float max` (the spec's `+∞`) and the loop continues
to the next candidate; only an exception raised during verification escapes
the boundary. -/
theorem pipeline_exception_boundary :
    (∀ (cr : CandidateRun) (e : String), runKernelBody cr = .error e →
      runKernel cr = { time := floatMax, threads := 0, status := false })
    ∧ (∀ (hasReference : Bool) (crs : List CandidateRun),
        (∀ cr ∈ crs, hasReference = true → cr.verifyThrows = false) →
        tuneLoop hasReference crs =
          .ok (crs.map (fun cr =>
            { runKernel cr with
              status := if hasReference then cr.verifyStatus else true }))) :=
  ⟨runKernel_error_sentinel, tuneLoop_noThrow⟩

/-- Witness for C1 amended: a failing compile is caught (sentinel result)
and a two-candidate loop with throwing-free verification completes with
both results recorded. -/
theorem pipeline_exception_boundary_witness :
    runKernel crCompileFail = { time := floatMax, threads := 0, status := false }
    ∧ tuneLoop true [crCompileFail, crGood] =
        .ok [{ time := floatMax, threads := 0, status := true },
             { time := 3, threads := 64, status := true }] := by
  constructor
  · exact pipeline_exception_boundary.1 crCompileFail "OpenCL compiler error" rfl
  · have h3 : List.foldl min floatMax [3] = (3 : ℚ) := by
      norm_num [floatMax, min_def]
    have h := pipeline_exception_boundary.2 true [crCompileFail, crGood]
      (by intro cr hcr href; fin_cases hcr <;> rfl)
    rw [h]
    simp [runKernel, runKernelBody, crCompileFail, crGood, h3]

/-! ### Result recording and display (`TunerImpl::Tune`, lines 196–204)

After storing a result, `Tune` classifies it for display:
`if (tuning_result.time == std::numeric_limits<double>::max())` prints via
the failure banner (briefly mutating `time` to `0.0` and back), otherwise
`else if (!tuning_result.status)` prints via the warning banner. -/

inductive DisplayTag where
  | failureTag : DisplayTag
  | warningTag : DisplayTag
  | noneTag : DisplayTag
  deriving DecidableEq

/-- The display classification applied by `Tune` to a freshly stored
result. -/
def displayTag (r : TunerResultM) : DisplayTag :=
  if r.time = doubleMax then .failureTag
  else if r.status = false then .warningTag
  else .noneTag

/-- A candidate that measures successfully but mismatches the reference. -/
def crMismatch : CandidateRun :=
  { crGood with verifyStatus := false }

/-- C5 (code bug): a failed candidate is stored with the sentinel
`float max` — a finite value, not `+∞` — while `Tune` tests the stored time
against `double max`.  The two sentinels differ, so the failure display
branch can never fire: a failed candidate is classified through the
mismatch (warning) branch, or not at all.  A mismatching candidate does
retain its measured time with only the status field differing. -/
theorem failed_result_display_bug :
    runKernel crCompileFail = { time := floatMax, threads := 0, status := false }
    ∧ floatMax ≠ doubleMax
    ∧ displayTag { time := floatMax, threads := 0, status := false } = .warningTag
    ∧ displayTag { time := floatMax, threads := 0, status := true } = .noneTag
    ∧ tuneCandidate true crMismatch = .ok { time := 3, threads := 64, status := false }
    ∧ tuneCandidate true crGood = .ok { time := 3, threads := 64, status := true } := by
  have hne : floatMax ≠ doubleMax := by norm_num [floatMax, doubleMax]
  have h3 : List.foldl min floatMax [3] = (3 : ℚ) := by
    norm_num [floatMax, min_def]
  refine ⟨rfl, hne, ?_, ?_, ?_, ?_⟩
  · simp [displayTag, hne]
  · simp [displayTag, hne]
  · simp [tuneCandidate, verifyOutputE, crMismatch, crGood, Except.map,
          runKernel, runKernelBody, h3]
  · simp [tuneCandidate, verifyOutputE, crGood, Except.map,
          runKernel, runKernelBody, h3]

/-- C7: without a configured reference, `VerifyOutput` downloads no buffer
and returns `Ok`, and every result of a tuning session carries `Ok` status —
no candidate is ever marked mismatching. -/
theorem no_reference_skips_verification :
    (∀ (eps : ℚ) (bufs : List (List BufElem)), verifyOutput false eps bufs = (true, []))
    ∧ (∀ crs : List CandidateRun, tuneLoop false crs =
        .ok (crs.map (fun cr => { runKernel cr with status := true })))
    ∧ (∀ (crs : List CandidateRun) (rs : List TunerResultM),
        tuneLoop false crs = .ok rs → ∀ r ∈ rs, r.status = true) := by
  have hloop : ∀ crs : List CandidateRun, tuneLoop false crs =
      .ok (crs.map (fun cr => { runKernel cr with status := true })) := by
    intro crs
    have h := tuneLoop_noThrow false crs (fun cr hcr hfalse => by cases hfalse)
    simpa using h
  refine ⟨fun eps bufs => rfl, hloop, ?_⟩
  intro crs rs hok r hr
  rw [hloop crs] at hok
  cases hok
  rcases List.mem_map.mp hr with ⟨cr, hcr, rfl⟩
  rfl

/-- Witness for C7 at concrete inputs: a buffer list containing a
mismatching buffer is not even downloaded without a reference, and a
candidate whose verification download would throw still completes with `Ok`
status. -/
theorem no_reference_skips_verification_witness :
    verifyOutput false (1/10000) [bufNaN] = (true, [])
    ∧ tuneLoop false [crBadVerify] =
        .ok [{ time := 3, threads := 64, status := true }]
    ∧ (∀ r ∈ [({ time := 3, threads := 64, status := true } : TunerResultM)],
        r.status = true) := by
  have h3 : List.foldl min floatMax [3] = (3 : ℚ) := by
    norm_num [floatMax, min_def]
  have hloop := no_reference_skips_verification.2.1 [crBadVerify]
  have hconc : tuneLoop false [crBadVerify] =
      .ok [{ time := 3, threads := 64, status := true }] := by
    rw [hloop]
    simp [runKernel, runKernelBody, crBadVerify, crGood, h3]
  refine ⟨no_reference_skips_verification.1 (1/10000) [bufNaN], hconc, ?_⟩
  exact no_reference_skips_verification.2.2 [crBadVerify] _ hconc

/-! ### Order of operations in `TunerImpl::Tune` (lines 124–216)

`Tune` first runs the reference kernel (if configured) via `RunKernel` and
then `StoreReferenceOutput()`; only afterwards does it iterate over the
tunable kernels.  A kernel without tuning parameters is compiled and run
once, verified, and its single result stored; a kernel with parameters is
enumerated (`SetConfigurations`), and for each searcher-chosen configuration
`Tune` measures, verifies, feeds the time back to the searcher and appends
the result.  The trace below lists these actions in program order. -/

/-- The data of one tunable kernel that determines `Tune`'s control flow:
an identifier, the number of tuning parameters, and the number of
configurations the searcher will request. -/
structure KernelM where
  kid : ℕ
  numParams : ℕ
  numConfigs : ℕ
  deriving DecidableEq

inductive TuneEvent where
  | runReference : TuneEvent
  | storeSnapshot : TuneEvent
  | enumerate : ℕ → TuneEvent
  | measure : ℕ → ℕ → TuneEvent
  | verify : ℕ → ℕ → TuneEvent
  | feedback : ℕ → ℕ → TuneEvent
  | appendResult : ℕ → ℕ → TuneEvent
  deriving DecidableEq

/-- The actions `Tune` performs for one tunable kernel, in program order. -/
def kernelTrace (k : KernelM) : List TuneEvent :=
  if k.numParams = 0 then
    [.measure k.kid 0, .verify k.kid 0, .appendResult k.kid 0]
  else
    .enumerate k.kid ::
      (List.range k.numConfigs).flatMap (fun p =>
        [.measure k.kid p, .verify k.kid p, .feedback k.kid p, .appendResult k.kid p])

/-- The actions of one `Tune()` call, in program order: the reference run
and snapshot store (when a reference is configured) strictly precede every
kernel's tuning actions. -/
def tuneTrace (hasReference : Bool) (kernels : List KernelM) : List TuneEvent :=
  (if hasReference then [.runReference, .storeSnapshot] else [])
    ++ kernels.flatMap kernelTrace

theorem kernelTrace_no_reference_events (k : KernelM) :
    ∀ e ∈ kernelTrace k, e ≠ .runReference ∧ e ≠ .storeSnapshot := by
  intro e he
  rw [kernelTrace] at he
  by_cases hz : k.numParams = 0
  · rw [if_pos hz] at he
    simp only [List.mem_cons, List.not_mem_nil, or_false] at he
    rcases he with rfl | rfl | rfl <;>
      exact ⟨fun h => TuneEvent.noConfusion h, fun h => TuneEvent.noConfusion h⟩
  · rw [if_neg hz] at he
    rcases List.mem_cons.mp he with rfl | he2
    · exact ⟨fun h => TuneEvent.noConfusion h, fun h => TuneEvent.noConfusion h⟩
    · rcases List.mem_flatMap.mp he2 with ⟨p, hp, he3⟩
      simp only [List.mem_cons, List.not_mem_nil, or_false] at he3
      rcases he3 with rfl | rfl | rfl | rfl <;>
        exact ⟨fun h => TuneEvent.noConfusion h, fun h => TuneEvent.noConfusion h⟩

/-- C6: with a reference configured, `Tune` performs the reference run and
snapshot store exactly once, as the first two actions of the session; no
kernel's tuning actions (and in particular no candidate measurement and no
output comparison) occur before the snapshot is stored. -/
theorem reference_runs_once_before_tuning (ks : List KernelM) :
    tuneTrace true ks
      = TuneEvent.runReference :: TuneEvent.storeSnapshot :: ks.flatMap kernelTrace
    ∧ (tuneTrace true ks).count .runReference = 1
    ∧ (tuneTrace true ks).count .storeSnapshot = 1
    ∧ ∀ e ∈ ks.flatMap kernelTrace, e ≠ .runReference ∧ e ≠ .storeSnapshot := by
  have hmem : ∀ e ∈ ks.flatMap kernelTrace, e ≠ .runReference ∧ e ≠ .storeSnapshot := by
    intro e he
    rcases List.mem_flatMap.mp he with ⟨k, hk, hke⟩
    exact kernelTrace_no_reference_events k e hke
  have hrefz : (ks.flatMap kernelTrace).count TuneEvent.runReference = 0 :=
    List.count_eq_zero.mpr (fun h => (hmem _ h).1 rfl)
  have hsnapz : (ks.flatMap kernelTrace).count TuneEvent.storeSnapshot = 0 :=
    List.count_eq_zero.mpr (fun h => (hmem _ h).2 rfl)
  refine ⟨rfl, ?_, ?_, hmem⟩
  · show (TuneEvent.runReference :: TuneEvent.storeSnapshot ::
      ks.flatMap kernelTrace).count .runReference = 1
    simp [List.count_cons, hrefz]
  · show (TuneEvent.runReference :: TuneEvent.storeSnapshot ::
      ks.flatMap kernelTrace).count .storeSnapshot = 1
    simp [List.count_cons, hsnapz]

/-- C10: a kernel without tuning parameters bypasses enumeration and the
searcher: `Tune` measures it exactly once, verifies its output, and appends
exactly one result — its trace holds no enumeration and no searcher
feedback. -/
theorem paramless_kernel_single_run (k : KernelM) (hz : k.numParams = 0) :
    kernelTrace k = [.measure k.kid 0, .verify k.kid 0, .appendResult k.kid 0]
    ∧ (kernelTrace k).count (.measure k.kid 0) = 1
    ∧ (kernelTrace k).count (.appendResult k.kid 0) = 1
    ∧ (∀ e ∈ kernelTrace k, (∀ i, e ≠ .enumerate i) ∧ ∀ i p, e ≠ .feedback i p) := by
  have htr : kernelTrace k = [.measure k.kid 0, .verify k.kid 0, .appendResult k.kid 0] := by
    rw [kernelTrace, if_pos hz]
  refine ⟨htr, ?_, ?_, ?_⟩
  · rw [htr]; simp [List.count_cons]
  · rw [htr]; simp [List.count_cons]
  · rw [htr]
    intro e he
    simp only [List.mem_cons, List.not_mem_nil, or_false] at he
    rcases he with rfl | rfl | rfl <;>
      exact ⟨fun i h => TuneEvent.noConfusion h, fun i p h => TuneEvent.noConfusion h⟩

/-- Witness for C10 at a concrete kernel with no tuning parameters. -/
theorem paramless_kernel_single_run_witness :
    kernelTrace ⟨7, 0, 0⟩
      = [.measure 7 0, .verify 7 0, .appendResult 7 0]
    ∧ (kernelTrace ⟨7, 0, 0⟩).count (.measure 7 0) = 1
    ∧ (kernelTrace ⟨7, 0, 0⟩).count (.appendResult 7 0) = 1
    ∧ (∀ e ∈ kernelTrace ⟨7, 0, 0⟩,
        (∀ i, e ≠ .enumerate i) ∧ ∀ i p, e ≠ .feedback i p) :=
  paramless_kernel_single_run ⟨7, 0, 0⟩ rfl

/-- Witness for C6 at a concrete session of one kernel with two parameters
and four configurations. -/
theorem reference_runs_once_before_tuning_witness :
    (tuneTrace true [⟨1, 2, 4⟩]).count .runReference = 1
    ∧ (tuneTrace true [⟨1, 2, 4⟩]).count .storeSnapshot = 1
    ∧ ∀ e ∈ ([⟨1, 2, 4⟩] : List KernelM).flatMap kernelTrace,
        e ≠ .runReference ∧ e ≠ .storeSnapshot :=
  ⟨(reference_runs_once_before_tuning [⟨1, 2, 4⟩]).2.1,
   (reference_runs_once_before_tuning [⟨1, 2, 4⟩]).2.2.1,
   (reference_runs_once_before_tuning [⟨1, 2, 4⟩]).2.2.2⟩

/-! ### Surrogate-model prediction phase
(`TunerImpl::ModelPrediction`, lines 489–546)

After training, the code predicts a time for every configuration of the
kernel's enumeration (`for (auto &permutation: kernel.configurations())`),
collects `(index, predicted_time)` tuples, sorts them ascending by predicted
time with `std::sort`, and re-measures the first
`min(test_top_x_configurations, model_results.size())` entries on the
device, appending each true result to `tuning_results_`.  The trained model
is abstracted as the function `predict`; re-measuring configuration `p` on
the device is abstracted as `measureRes p`. -/

/-- The `(index, predicted_time)` tuples: one per configuration of the
enumeration, in enumeration order. -/
def modelResultsOf (predict : List ℕ → ℚ) (configs : List (List ℕ)) : List (ℕ × ℚ) :=
  configs.enum.map (fun pc => (pc.1, predict pc.2))

/-- The tuples sorted ascending by predicted time (`std::sort` with the
comparator `get<1>(t1) < get<1>(t2)`; modelled with a stable merge sort —
`std::sort` leaves the order of tied elements unspecified). -/
def sortedResultsOf (predict : List ℕ → ℚ) (configs : List (List ℕ)) : List (ℕ × ℚ) :=
  (modelResultsOf predict configs).mergeSort (fun a b => decide (a.2 ≤ b.2))

/-- The entries re-measured on the device: the loop runs while
`i < test_top_x_configurations && i < model_results.size()`. -/
def topConfigsOf (predict : List ℕ → ℚ) (configs : List (List ℕ)) (topK : ℕ) :
    List (ℕ × ℚ) :=
  (sortedResultsOf predict configs).take topK

/-- The result log after the prediction phase: the true measurement of each
re-measured configuration is appended to the existing log. -/
def modelPredictionPhase (predict : List ℕ → ℚ) (measureRes : ℕ → TunerResultM)
    (configs : List (List ℕ)) (topK : ℕ) (log : List TunerResultM) : List TunerResultM :=
  log ++ (topConfigsOf predict configs topK).map (fun pc => measureRes pc.1)

/-- C8: the prediction phase produces one prediction per configuration of
the valid enumeration (the tuple indices are exactly the enumeration
indices, in order), ranks them as a permutation of the predictions sorted
ascending by predicted time, re-measures the top `topK` of that ranking —
all of them when fewer than `topK` exist — and appends their true results to
the log. -/
theorem surrogate_prediction_phase (predict : List ℕ → ℚ)
    (measureRes : ℕ → TunerResultM) (configs : List (List ℕ)) (topK : ℕ)
    (log : List TunerResultM) :
    (modelResultsOf predict configs).length = configs.length
    ∧ (modelResultsOf predict configs).map Prod.fst = List.range configs.length
    ∧ List.Perm (sortedResultsOf predict configs) (modelResultsOf predict configs)
    ∧ (sortedResultsOf predict configs).Pairwise (fun a b => a.2 ≤ b.2)
    ∧ (topConfigsOf predict configs topK).length = min topK configs.length
    ∧ modelPredictionPhase predict measureRes configs topK log
        = log ++ (topConfigsOf predict configs topK).map (fun pc => measureRes pc.1) := by
  refine ⟨?_, ?_, ?_, ?_, ?_, rfl⟩
  · simp [modelResultsOf]
  · rw [modelResultsOf, List.map_map]
    have h : (Prod.fst ∘ fun pc : ℕ × List ℕ => (pc.1, predict pc.2))
        = Prod.fst := rfl
    rw [h]
    exact List.enum_map_fst configs
  · exact List.mergeSort_perm (modelResultsOf predict configs) _
  · have hsorted : (sortedResultsOf predict configs).Pairwise
        (fun a b : ℕ × ℚ => decide (a.2 ≤ b.2) = true) := by
      apply List.sorted_mergeSort
      · intro a b c hab hbc
        simp only [decide_eq_true_eq] at *
        exact le_trans hab hbc
      · intro a b
        simp only [Bool.or_eq_true, decide_eq_true_eq]
        exact le_total a.2 b.2
    exact hsorted.imp (fun h => of_decide_eq_true h)
  · rw [topConfigsOf, List.length_take, sortedResultsOf, List.length_mergeSort]
    simp [modelResultsOf]

end CLTune
